import Mathlib

/-!
# Verification of the MIA control plane against its specification

Shallow embedding of the MIA repository's core algorithms, translated from the
C++ sources:

* `src/arduino/MIAProtocol/MIAProtocol.{h,cpp}` — serial framing protocol
  (CRC16-CCITT, start/end sentinels, timed receive loops, handshake).
* `src/platforms/cpp/core/CoreOrchestrator.cpp` — intent classifier
  (`NLPProcessor::parseCommand`), command router (`routeCommand`), service
  dispatch (`callService`).
* `src/platforms/cpp/core/HardwareControlServer.cpp` — GPIO resource manager
  (`ConfigureGPIOPin`, `SetGPIOPin`, `GetGPIOPin`, `HandleGPIOControl`).
* `src/platforms/cpp/core/FlatBuffersRequestReader.cpp` — socket envelope
  classification (`next`).

Machine integers are modelled as `Nat` with explicit `% 65536` / `% 256` where
the C types truncate.  Wall-clock time in the serial receive loops is modelled
by an explicit counter: each `delay(1)` poll-loop iteration advances time by
one millisecond and reads are instantaneous, which is the discipline the
Arduino code is written for.  A serial input stream is a queue of
`(arrivalTime, byte)` pairs.
-/

namespace MIA

/-! ## Serial protocol constants (`MIAProtocol.h`) -/

/-- `MIA_PROTOCOL_VERSION` from `MIAProtocol.h`. -/
def MIA_PROTOCOL_VERSION : Nat := 1

/-- `MIA_START_BYTE` (0xAA). -/
def MIA_START_BYTE : Nat := 0xAA

/-- `MIA_END_BYTE` (0x55). -/
def MIA_END_BYTE : Nat := 0x55

/-- `MIA_MAX_MESSAGE_SIZE` (256). -/
def MIA_MAX_MESSAGE_SIZE : Nat := 256

/-- `MIA_DEFAULT_TIMEOUT` (1000 ms). -/
def MIA_DEFAULT_TIMEOUT : Nat := 1000

/-- Error codes of `MIAErrorCode` in `MIAProtocol.h`. -/
inductive MIAErrorCode where
  | errorNone
  | errorCrcMismatch
  | errorInvalidMessage
  | errorTimeout
  | errorBufferOverflow
  | errorUnsupportedCommand
  deriving DecidableEq, Repr

/-! ## CRC16-CCITT (`MIAProtocol::calculateCRC16`)

The C loop body is
`if (crc & 0x8000) crc = (crc << 1) ^ 0x1021; else crc <<= 1;`
on a `uint16_t` accumulator: the shift truncates to 16 bits. -/

/-- One inner-loop iteration of `calculateCRC16` on a 16-bit accumulator. -/
def crcStep (crc : Nat) : Nat :=
  if crc &&& 0x8000 ≠ 0 then (crc * 2 % 65536) ^^^ 0x1021 else crc * 2 % 65536

/-- The eight inner-loop iterations applied per input byte. -/
def crcRounds (crc : Nat) : Nat := crcStep^[8] crc

/-- Per-byte update: `crc ^= (uint16_t)data[i] << 8;` followed by eight
`crcStep`s.  The `% 256` mirrors the `uint8_t` type of `data[i]`. -/
def crcByteStep (crc b : Nat) : Nat := crcRounds (crc ^^^ b % 256 * 256)

/-- `MIAProtocol::calculateCRC16` over a byte list, init `0xFFFF`. -/
def calculateCRC16 (data : List Nat) : Nat := data.foldl crcByteStep 0xFFFF

/-! ## Frame encoding (`sendMessage` → `_encodeMessage` → `_sendFramedMessage`) -/

/-- The byte sequence `_sendFramedMessage` emits for the encoded message
`type :: data` produced by `_encodeMessage`:
`START | len_hi | len_lo | type | payload | crc_hi | crc_lo | END`,
with the CRC computed over `type :: payload`. -/
def frameBytes (ty : Nat) (data : List Nat) : List Nat :=
  let enc := ty % 256 :: data
  let len := enc.length
  let crc := calculateCRC16 enc
  [MIA_START_BYTE, len / 256 % 256, len % 256] ++ enc ++
    [crc / 256 % 256, crc % 256, MIA_END_BYTE]

/-- `MIAProtocol::sendMessage`: rejects payloads longer than
`MIA_MAX_MESSAGE_SIZE - 8` (protocol overhead), `_encodeMessage` additionally
rejects payloads longer than `MIA_MAX_MESSAGE_SIZE - 1`, otherwise the frame
is written to the serial line. -/
def sendMessage (ty : Nat) (data : List Nat) : Option (List Nat) :=
  if MIA_MAX_MESSAGE_SIZE - 8 < data.length then none
  else if MIA_MAX_MESSAGE_SIZE - 1 < data.length then none
  else some (frameBytes ty data)

/-! ## Timed serial receive (`_receiveFramedMessage`)

A stream is a list of `(arrivalTime, byte)` pairs in queue order; a byte is
available from its arrival time on.  Each poll-loop iteration of the C code
executes `delay(1)`, so consecutive polls are one millisecond apart; a byte
arriving at time `ta` is read at `max t ta` where `t` is the time the loop
reaches the poll. -/

/-- One queued serial byte: arrival time and value. -/
abbrev Arrival := Nat × Nat

/-- The start-byte scan loop: polls until `MIA_START_BYTE` is read or the
deadline `dl` passes (`while (millis() - startTime < timeout)`).  Returns the
remaining stream and the time of the break.  A read of a non-start byte is
followed by `delay(1)`; the `break` on the start byte is not. -/
def scanStart : List Arrival → Nat → Nat → Option (List Arrival × Nat)
  | [], _, _ => none
  | (ta, b) :: rest, t, dl =>
    let tr := max t ta
    if dl ≤ tr then none
    else if b % 256 = MIA_START_BYTE then some (rest, tr)
    else scanStart rest (tr + 1) dl

/-- The payload-read loop
`while (bytesRead < msgLength && millis() - dataStartTime < timeout)`:
reads one byte per millisecond while bytes are available and the deadline has
not passed.  Returns the bytes read, the rest of the stream, and the time
after the final `delay(1)`; `none` when fewer than `need` bytes could be read
before the deadline `dl` (the short-read case). -/
def readData : List Arrival → Nat → Nat → Nat → Option (List Nat × List Arrival × Nat)
  | l, t, _, 0 => some ([], l, t)
  | [], _, _, _ + 1 => none
  | (ta, b) :: rest, t, dl, need + 1 =>
    let tr := max t ta
    if dl ≤ tr then none
    else match readData rest (tr + 1) dl need with
      | some (bs, l, tEnd) => some (b % 256 :: bs, l, tEnd)
      | none => none

/-- The end-byte scan loop with its fixed 100 ms grace window
(`while (millis() - endByteStartTime < 100)`). -/
def scanEnd : List Arrival → Nat → Nat → Option Unit
  | [], _, _ => none
  | (ta, b) :: rest, t, dl =>
    let tr := max t ta
    if dl ≤ tr then none
    else if b % 256 = MIA_END_BYTE then some ()
    else scanEnd rest (tr + 1) dl

/-- `MIAProtocol::_receiveFramedMessage`, started at time 0: scan for the
start byte within `timeout`; read the 2-byte big-endian length instantly
(fails `InvalidMessage` unless two bytes are already available); reject
lengths above `MIA_MAX_MESSAGE_SIZE` (`BufferOverflow`); read the declared
number of bytes within a fresh window of `timeout` starting at
`dataStartTime = millis()` (`Timeout` on short read); read and check the
2-byte CRC (`CrcMismatch` on disagreement); require the end byte within
100 ms (`InvalidMessage` otherwise). -/
def receiveFramed (arr : List Arrival) (timeout : Nat) :
    Except MIAErrorCode (List Nat) :=
  match scanStart arr 0 timeout with
  | none => .error .errorTimeout
  | some (rest, t1) =>
    match rest with
    | (ta1, b1) :: (ta2, b2) :: rest2 =>
      if ta1 ≤ t1 ∧ ta2 ≤ t1 then
        let msgLength := b1 % 256 * 256 + b2 % 256
        if MIA_MAX_MESSAGE_SIZE < msgLength then .error .errorBufferOverflow
        else
          match readData rest2 t1 (t1 + timeout) msgLength with
          | none => .error .errorTimeout
          | some (data, rest3, t2) =>
            match rest3 with
            | (tc1, c1) :: (tc2, c2) :: rest4 =>
              if tc1 ≤ t2 ∧ tc2 ≤ t2 then
                let receivedCRC := c1 % 256 * 256 + c2 % 256
                if calculateCRC16 data = receivedCRC then
                  match scanEnd rest4 t2 (t2 + 100) with
                  | some _ => .ok data
                  | none => .error .errorInvalidMessage
                else .error .errorCrcMismatch
              else .error .errorInvalidMessage
            | _ => .error .errorInvalidMessage
      else .error .errorInvalidMessage
    | _ => .error .errorInvalidMessage

/-- `MIAProtocol::receiveMessage` = `_receiveFramedMessage` followed by
`_decodeMessage`, which strips the one-byte type prefix. -/
def receiveMessage (arr : List Arrival) (timeout : Nat) :
    Except MIAErrorCode (Nat × List Nat) :=
  match receiveFramed arr timeout with
  | .error e => .error e
  | .ok [] => .error .errorInvalidMessage
  | .ok (ty :: payload) => .ok (ty, payload)

/-- A byte list delivered all at once at time 0. -/
def arrivalsAt0 (bs : List Nat) : List Arrival := bs.map fun b => (0, b)

/-! ## Handshake listener (`MIAProtocol::waitForHandshake`)

`waitForHandshake` polls `receiveMessage`; on a decoded message it checks
`msgType == MSG_HANDSHAKE_REQUEST && length >= 3`, parses the device type,
protocol-version byte, name and version string out of the buffer, replies
with `MSG_HANDSHAKE_RESPONSE` payload `{1, 0}` and sets
`_handshakeComplete = true`.  The parsed fields do not feed into the
decision.  `MSG_HANDSHAKE_REQUEST = 7`. -/

/-- The fields `waitForHandshake` parses out of a handshake-request payload:
`buffer[0]` (device type), `buffer[1]` (protocol version), a nul-terminated
name of at most 31 bytes, then a nul-terminated version of at most 15 bytes. -/
structure HandshakeParse where
  deviceType : Nat
  protocolVersion : Nat
  remoteName : List Nat
  remoteVersion : List Nat
  deriving DecidableEq, Repr

/-- Parse a handshake-request payload as `waitForHandshake` does. -/
def parseHandshake (buffer : List Nat) : Option HandshakeParse :=
  match buffer with
  | dt :: ver :: rest =>
    let nm := (rest.takeWhile (· ≠ 0)).take 31
    let after := rest.drop (nm.length + 1)
    let vs := (after.takeWhile (· ≠ 0)).take 15
    some ⟨dt, ver, nm, vs⟩
  | _ => none

/-- The decision `waitForHandshake` makes on one decoded inbound message:
`some (parsedFields, responsePayload, handshakeComplete)` when it accepts and
replies, `none` when the message is ignored and polling continues.  The
acceptance test is exactly `msgType == MSG_HANDSHAKE_REQUEST && length >= 3`;
the reply payload is `{1, 0}` (success byte, reserved byte). -/
def waitForHandshakeOutcome (msgType : Nat) (buffer : List Nat) :
    Option (HandshakeParse × List Nat × Bool) :=
  if msgType = 7 ∧ 3 ≤ buffer.length then
    match parseHandshake buffer with
    | some p => some (p, [1, 0], true)
    | none => none
  else none

/-! ## Intent classifier (`NLPProcessor` in `CoreOrchestrator.cpp`)

`initializePatterns` fills `intentPatterns` (an `std::unordered_map`) with
nine intents; `parseCommand` lower-cases the text, tokenizes on whitespace,
scores each intent by the number of its keywords occurring as substrings of
the whole lower-cased text, collects positive scores into a second
`unordered_map`, and takes `std::max_element` over it.  `std::unordered_map`
iteration order is unspecified by the C++ standard, so the classifier is
modelled with the iteration order of the score map as an explicit parameter
`order`; `insertionOrder` below is the order in which `initializePatterns`
inserts the intents.  `max_element` with `a.second < b.second` returns the
first element of the iteration achieving the maximal score, which the fold in
`parseCommandWith` reproduces.  Confidence is a C `float`
(`score / words.size()`), modelled as an exact rational.  Parameter
extraction (`extractParameters`) is not modelled: no claim refers to it. -/

/-- `p` occurs at the head of `l`. -/
def listStartsWith : List Char → List Char → Bool
  | _, [] => true
  | [], _ :: _ => false
  | h :: hs, n :: ns => h = n && listStartsWith hs ns

/-- `needle` occurs as a contiguous substring of `hay`
(`std::string::find != npos`). -/
def listHasSub : List Char → List Char → Bool
  | [], needle => needle.isEmpty
  | h :: hs, needle => listStartsWith (h :: hs) needle || listHasSub hs needle

/-- ASCII lower-casing (`std::transform` with `::tolower`), as a character
list. -/
def lowerChars (s : String) : List Char := s.toList.map Char.toLower

/-- Whitespace tokenization (`std::istringstream >> word`): the maximal
whitespace-free runs, in order.  `acc` holds the current word reversed. -/
def splitWordsAux : List Char → List Char → List (List Char)
  | [], acc => if acc.isEmpty then [] else [acc.reverse]
  | c :: cs, acc =>
    if c.isWhitespace then
      if acc.isEmpty then splitWordsAux cs []
      else acc.reverse :: splitWordsAux cs []
    else splitWordsAux cs (c :: acc)

/-- The token list of a character sequence. -/
def splitWordsL (l : List Char) : List (List Char) := splitWordsAux l []

/-- The static intent table of `NLPProcessor::initializePatterns`, listed in
the order the C++ constructor inserts the entries. -/
def intentPatterns : List (String × List String) :=
  [("play_music", ["play", "music", "song", "track", "album", "artist", "spotify", "youtube"]),
   ("control_volume", ["volume", "loud", "quiet", "mute", "unmute", "louder", "quieter"]),
   ("switch_audio", ["switch", "change", "output", "headphones", "speakers", "bluetooth", "rtsp"]),
   ("system_control", ["open", "close", "launch", "run", "execute", "kill", "start", "stop"]),
   ("file_operation", ["download", "upload", "copy", "move", "delete", "create", "save"]),
   ("smart_home", ["lights", "temperature", "thermostat", "lock", "unlock", "dim", "brightness"]),
   ("communication", ["send", "call", "message", "text", "email", "whatsapp", "telegram"]),
   ("navigation", ["directions", "navigate", "route", "map", "location", "traffic", "gps"]),
   ("hardware_control", ["gpio", "pin", "sensor", "led", "relay", "pwm", "analog", "digital"])]

/-- The insertion order of the intent table. -/
def insertionOrder : List String := intentPatterns.map Prod.fst

/-- Number of keywords of `intent` occurring as substrings
(`textLower.find(keyword) != npos`) of the (already lower-cased) text — the
score `parseCommand` computes per intent. -/
def intentScore (textLower : List Char) (intent : String) : Nat :=
  match intentPatterns.find? (fun p => p.1 = intent) with
  | some (_, keywords) => keywords.countP (fun k => listHasSub textLower k.toList)
  | none => 0

/-- The intents with positive score, in the iteration order `order` of the
score map (`intentScores` only receives intents with `score > 0`). -/
def positiveIntents (order : List String) (textLower : List Char) : List String :=
  order.filter (fun i => 0 < intentScore textLower i)

/-- Result record of `NLPProcessor::parseCommand` (parameter extraction not
modelled). -/
structure IntentResult where
  originalText : String
  intent : String
  confidence : ℚ
  parameters : List (String × String) := []
  deriving DecidableEq, Repr

/-- `NLPProcessor::parseCommand`, with the unspecified iteration order of the
`intentScores` hash map made explicit as `order`.  `max_element` keeps the
first element and replaces it only on a strictly greater score, so the winner
is the first maximal element of the iteration. -/
def parseCommandWith (order : List String) (text : String) : IntentResult :=
  let textLower := lowerChars text
  let words := splitWordsL textLower
  if words.isEmpty then ⟨text, "unknown", 0, []⟩
  else
    match positiveIntents order textLower with
    | [] => ⟨text, "unknown", 0, []⟩
    | first :: rest =>
      let best := rest.foldl
        (fun acc i => if intentScore textLower acc < intentScore textLower i then i else acc)
        first
      ⟨text, best, (intentScore textLower best : ℚ) / ((words.length : ℚ)), []⟩

/-! ## Command router (`CoreOrchestrator::routeCommand`)

The remote call is abstracted as an oracle
`call : serviceName → toolName → parameters → Option String`
(`none` models `callService` returning `false`).  The second component of the
result records the dispatch calls issued, so "never performs a service
dispatch call" is expressible. -/

/-- `CoreOrchestrator::routeCommand`.  Returns the response string and the
list of `(service, tool)` dispatch calls issued. -/
def routeCommand (call : String → String → List (String × String) → Option String)
    (intent : IntentResult) : String × List (String × String) :=
  if intent.confidence < (1 : ℚ) / 10 then
    ("Sorry, I couldn't understand the command. Please try again.", [])
  else if intent.intent = "play_music" then
    match call "ai-audio-assistant" "play_music" intent.parameters with
    | some r => ("Music command processed: " ++ r, [("ai-audio-assistant", "play_music")])
    | none => ("Audio service not available", [("ai-audio-assistant", "play_music")])
  else if intent.intent = "control_volume" then
    match call "ai-audio-assistant" "set_volume" intent.parameters with
    | some r => ("Volume command processed: " ++ r, [("ai-audio-assistant", "set_volume")])
    | none => ("Audio service not available", [("ai-audio-assistant", "set_volume")])
  else if intent.intent = "switch_audio" then
    match call "ai-audio-assistant" "switch_output" intent.parameters with
    | some r => ("Audio output switched: " ++ r, [("ai-audio-assistant", "switch_output")])
    | none => ("Audio service not available", [("ai-audio-assistant", "switch_output")])
  else if intent.intent = "system_control" then
    match call "ai-platform-linux" "execute_command" intent.parameters with
    | some r => ("System command executed: " ++ r, [("ai-platform-linux", "execute_command")])
    | none => ("Platform service not available", [("ai-platform-linux", "execute_command")])
  else if intent.intent = "hardware_control" then
    match call "hardware-bridge" "gpio_control" intent.parameters with
    | some r => ("Hardware command executed: " ++ r, [("hardware-bridge", "gpio_control")])
    | none => ("Hardware service not available", [("hardware-bridge", "gpio_control")])
  else if intent.intent = "file_operation" then
    if (intent.parameters.find? (fun p => p.1 = "url")).isSome then
      ("Download request queued", [])
    else ("File operation not supported", [])
  else ("Unknown command intent: " ++ intent.intent, [])

/-! ## Service dispatch lock discipline (`CoreOrchestrator::callService`)

`callService` opens with `std::lock_guard<std::mutex> lock(servicesMutex);`
whose scope is the whole function body: the lookup, the payload build, the
`callHttpService` network call and the health/last-seen updates all execute
before the guard's destructor releases the mutex at return.  The function is
embedded as the sequence of registry/lock/network actions it performs; the
`found` flag selects the early-return path for a missing service and `ok`
selects the normal path versus the `catch` path. -/

/-- The observable actions of one `callService` invocation. -/
inductive RegEvent where
  | lockAcquire
  | lockRelease
  | lookupService
  | buildPayload
  | httpCall
  | setHealthHealthy
  | setHealthError
  | setLastSeen
  deriving DecidableEq, Repr

/-- The action sequence of `CoreOrchestrator::callService`: the `lock_guard`
is constructed first and destroyed at function exit, so every path begins
with the acquire and ends with the release. -/
def callServiceEvents (found ok : Bool) : List RegEvent :=
  if !found then [.lockAcquire, .lookupService, .lockRelease]
  else if ok then
    [.lockAcquire, .lookupService, .buildPayload, .httpCall,
     .setHealthHealthy, .setLastSeen, .lockRelease]
  else
    [.lockAcquire, .lookupService, .buildPayload, .httpCall,
     .setHealthError, .lockRelease]

/-- Scans a trace tracking lock depth; `true` iff some event satisfying `p`
occurs while the registry lock is held. -/
def occursWhileLocked (p : RegEvent → Bool) : Nat → List RegEvent → Bool
  | _, [] => false
  | d, .lockAcquire :: rest => occursWhileLocked p (d + 1) rest
  | d, .lockRelease :: rest => occursWhileLocked p (d - 1) rest
  | d, e :: rest => (p e && decide (0 < d)) || occursWhileLocked p d rest

/-- `true` iff the HTTP dispatch call happens while the registry lock is
held. -/
def httpCallWhileLocked (tr : List RegEvent) : Bool :=
  occursWhileLocked (· = .httpCall) 0 tr

/-- `true` iff a health/last-seen update happens while the registry lock is
held. -/
def healthUpdateWhileLocked (tr : List RegEvent) : Bool :=
  occursWhileLocked
    (fun e => e = .setHealthHealthy || e = .setHealthError || e = .setLastSeen) 0 tr

/-- Number of lock acquisitions in a trace. -/
def lockAcquireCount (tr : List RegEvent) : Nat :=
  tr.countP (· = .lockAcquire)

/-! ## Hardware resource manager (`HardwareControlServer.cpp`)

`activeLines` is an `unordered_map<int, GPIOLineInfo>` guarded by
`gpioMutex`; every line claim goes through `gpiod_chip_request_lines`, which
returns a request handle, released by `gpiod_line_request_release`.  The
model tracks, besides the map, the sequence of hardware events (line-claim
acquisitions and releases keyed by a fresh handle id, plus value reads and
writes) so that "releases the prior claim before acquiring the new one" and
"without touching hardware" are expressible.  The libgpiod calls themselves
are modelled as succeeding (an ideal chip that is open and grants every
request); `hw` gives the electrical level of each line. -/

/-- `GPIOLineInfo` from `HardwareControlServer.h`, with the opaque
`gpiod_line_request*` handle replaced by the id of the claim event that
created it. -/
structure GPIOLineInfo where
  requestId : Nat
  offset : Nat
  is_output : Bool
  deriving DecidableEq, Repr

/-- Hardware-facing events of the GPIO server. -/
inductive HWEvent where
  | acquire (id : Nat) (pin : Int)
  | release (id : Nat)
  | setVal (pin : Int) (v : Bool)
  | getVal (pin : Int)
  deriving DecidableEq, Repr

/-- State of the GPIO server: the `activeLines` map (as an association list
keyed by pin), a fresh-id counter for claim handles, the event history, and
the line levels. -/
structure HWState where
  activeLines : List (Int × GPIOLineInfo)
  nextId : Nat
  events : List HWEvent
  hw : Int → Bool

/-- The server right after `InitializeGPIO`: no pin configured. -/
def initHWState : HWState :=
  { activeLines := [], nextId := 0, events := [], hw := fun _ => false }

/-- `activeLines.find(pin)`. -/
def linesLookup (l : List (Int × GPIOLineInfo)) (p : Int) : Option GPIOLineInfo :=
  (l.find? (fun q => q.1 = p)).map Prod.snd

/-- `activeLines.erase(it)`. -/
def linesErase (l : List (Int × GPIOLineInfo)) (p : Int) : List (Int × GPIOLineInfo) :=
  l.filter (fun q => q.1 ≠ p)

/-- `HardwareControlServer::ConfigureGPIOPin`: under `gpioMutex`, release and
erase any existing line request for the pin, then build the settings and
request the line from the chip (`is_output` from `direction == "output"`),
and store the new `GPIOLineInfo` in the map.  With the ideal chip the request
always succeeds, so the result flag is always `true`. -/
def ConfigureGPIOPin (s : HWState) (pin : Int) (direction : String) : Bool × HWState :=
  let (lines1, evs1) :=
    match linesLookup s.activeLines pin with
    | some old => (linesErase s.activeLines pin, s.events ++ [HWEvent.release old.requestId])
    | none => (s.activeLines, s.events)
  let is_out := direction = "output"
  let info : GPIOLineInfo := ⟨s.nextId, pin.toNat, is_out⟩
  (true,
   { s with
     activeLines := lines1 ++ [(pin, info)]
     nextId := s.nextId + 1
     events := evs1 ++ [HWEvent.acquire s.nextId pin] })

/-- `HardwareControlServer::SetGPIOPin`: under `gpioMutex`, fails when the
pin has no active line request or is not configured as output; only then is
`gpiod_line_request_set_value` invoked. -/
def SetGPIOPin (s : HWState) (pin : Int) (value : Bool) : Bool × HWState :=
  match linesLookup s.activeLines pin with
  | none => (false, s)
  | some info =>
    if !info.is_output then (false, s)
    else
      (true,
       { s with
         events := s.events ++ [HWEvent.setVal pin value]
         hw := fun p => if p = pin then value else s.hw p })

/-- `HardwareControlServer::GetGPIOPin`: under `gpioMutex`, fails when the
pin has no active line request; otherwise reads the line level. -/
def GetGPIOPin (s : HWState) (pin : Int) : Option Bool × HWState :=
  match linesLookup s.activeLines pin with
  | none => (none, s)
  | some _ => (some (s.hw pin), { s with events := s.events ++ [HWEvent.getVal pin] })

/-- One GPIO server operation, for quantifying over reachable states. -/
inductive HWOp where
  | config (pin : Int) (direction : String)
  | set (pin : Int) (value : Bool)
  | get (pin : Int)
  deriving DecidableEq, Repr

/-- Run one operation, discarding its result. -/
def runOp (s : HWState) : HWOp → HWState
  | .config pin d => (ConfigureGPIOPin s pin d).2
  | .set pin v => (SetGPIOPin s pin v).2
  | .get pin => (GetGPIOPin s pin).2

/-- Run a sequence of operations from a state. -/
def runOps (s : HWState) (ops : List HWOp) : HWState := ops.foldl runOp s

/-- The line claims still active after an event history: `acquire` adds a
`(handleId, pin)` claim, `release` removes the claim with that handle. -/
def claimStep (c : List (Nat × Int)) : HWEvent → List (Nat × Int)
  | .acquire id pin => c ++ [(id, pin)]
  | .release id => c.filter (fun q => q.1 ≠ id)
  | _ => c

/-- Active claims of an event history. -/
def activeClaims (evs : List HWEvent) : List (Nat × Int) :=
  evs.foldl claimStep []

/-! ## JSON control handler (`HardwareControlServer::HandleGPIOControl`)

The handler reads `pin`, `direction` and `value` with
`params.get(key, default)`: missing `pin` and `value` default to `-1`,
missing `direction` to `""`.  The model takes the JSON document as the three
optional fields. -/

/-- The fields of a parsed GPIO control JSON request. -/
structure GPIORequest where
  pin : Option Int
  direction : Option String
  value : Option Int
  deriving DecidableEq, Repr

/-- The JSON response fields the handler assigns. -/
structure GPIOResponse where
  success : Bool
  message : Option String
  error : Option String
  value : Option Int
  deriving DecidableEq, Repr

/-- `HardwareControlServer::HandleGPIOControl` on a parsed request. -/
def HandleGPIOControl (s : HWState) (r : GPIORequest) : HWState × GPIOResponse :=
  let pin := r.pin.getD (-1)
  let direction := r.direction.getD ""
  let value := r.value.getD (-1)
  if pin < 0 ∨ 40 < pin then
    (s, ⟨false, none, some "Invalid pin number. Must be between 0 and 40.", none⟩)
  else if direction ≠ "" then
    if direction = "input" ∨ direction = "output" then
      match ConfigureGPIOPin s pin direction with
      | (true, s1) =>
        let baseMsg := "GPIO pin " ++ toString pin ++ " configured as " ++ direction
        if direction = "output" ∧ 0 ≤ value then
          match SetGPIOPin s1 pin (value ≠ 0) with
          | (true, s2) =>
            (s2, ⟨true, some (baseMsg ++ " and set to " ++ toString value), none, none⟩)
          | (false, s2) =>
            (s2, ⟨false, some baseMsg, some "Failed to set GPIO pin value", none⟩)
        else if direction = "input" then
          match GetGPIOPin s1 pin with
          | (some v, s2) => (s2, ⟨true, some baseMsg, none, some (if v then 1 else 0)⟩)
          | (none, s2) => (s2, ⟨false, some baseMsg, some "Failed to read GPIO pin value", none⟩)
        else (s1, ⟨true, some baseMsg, none, none⟩)
      | (false, s1) => (s1, ⟨false, none, some "Failed to configure GPIO pin", none⟩)
    else (s, ⟨false, none, some "Invalid direction. Must be 'input' or 'output'.", none⟩)
  else if 0 ≤ value then
    match SetGPIOPin s pin (value ≠ 0) with
    | (true, s1) =>
      (s1, ⟨true, some ("GPIO pin " ++ toString pin ++ " set to " ++ toString value), none, none⟩)
    | (false, s1) =>
      (s1, ⟨false, none,
            some "Failed to set GPIO pin value. Pin may not be configured as output.", none⟩)
  else
    match GetGPIOPin s pin with
    | (some v, s1) =>
      (s1, ⟨true, some ("GPIO pin " ++ toString pin ++ " value read successfully"), none,
            some (if v then 1 else 0)⟩)
    | (none, s1) =>
      (s1, ⟨false, none,
            some "Failed to read GPIO pin value. Pin may not be configured as input.", none⟩)

/-! ## Socket envelope classification (`FlatBuffersRequestReader::next`)

The decoder first parses the buffer as the `webgrab::Message` union root; if
the discriminator differs from `Request_NONE` it switches on it, sending the
four known tags to their request types and everything else (an unrecognized
discriminator) to `Unknown`.  Only when the discriminator equals
`Request_NONE` does it fall back to the per-type verifiers, tried in the
fixed order Download, Status, Abort, Shutdown.  The FlatBuffers verifier
internals live in generated/library code outside this repository, so a buffer
is abstracted by the observations the decoder makes of it: the union
discriminator and the outcome of each concrete-type verifier. -/

/-- `RequestType` of the envelope layer. -/
inductive RequestType where
  | Download
  | Status
  | Abort
  | Shutdown
  | Unknown
  deriving DecidableEq, Repr

/-- The union discriminator as read through `msg->request_type()`:
`none_` is `Request_NONE` (absent), the four named tags are the known
variants, `unrecognized` is any other value (the `default:` case of the
switch). -/
inductive UnionTag where
  | none_
  | downloadRequest
  | downloadStatusRequest
  | downloadAbortRequest
  | shutdownRequest
  | unrecognized
  deriving DecidableEq, Repr

/-- A socket-envelope buffer, abstracted by what the decoder observes of it:
the union discriminator and each legacy verifier's verdict. -/
structure SocketBuffer where
  tag : UnionTag
  verifiesDownload : Bool
  verifiesStatus : Bool
  verifiesAbort : Bool
  verifiesShutdown : Bool
  deriving DecidableEq, Repr

/-- The classification `FlatBuffersRequestReader::next` assigns to a received
buffer. -/
def classifyRequest (b : SocketBuffer) : RequestType :=
  match b.tag with
  | .downloadRequest => .Download
  | .downloadStatusRequest => .Status
  | .downloadAbortRequest => .Abort
  | .shutdownRequest => .Shutdown
  | .unrecognized => .Unknown
  | .none_ =>
    if b.verifiesDownload then .Download
    else if b.verifiesStatus then .Status
    else if b.verifiesAbort then .Abort
    else if b.verifiesShutdown then .Shutdown
    else .Unknown

/-! ## CRC16 algebra

CRC16-CCITT is GF(2)-linear: `crcStep`, and hence the whole byte fold,
distributes over XOR.  Together with the fact that a nonzero accumulator
stays nonzero through `crcStep`, this yields that corrupting a single byte
of the input always changes the CRC. -/

theorem xor_mod_two_pow (a b n : Nat) : (a ^^^ b) % 2 ^ n = a % 2 ^ n ^^^ b % 2 ^ n := by
  apply Nat.eq_of_testBit_eq
  intro i
  simp only [Nat.testBit_mod_two_pow, Nat.testBit_xor]
  cases hd : decide (i < n) <;> simp

theorem xor_mul_pow_two (a b n : Nat) : (a ^^^ b) * 2 ^ n = a * 2 ^ n ^^^ b * 2 ^ n := by
  rw [← Nat.shiftLeft_eq, ← Nat.shiftLeft_eq, ← Nat.shiftLeft_eq]
  apply Nat.eq_of_testBit_eq
  intro i
  simp only [Nat.testBit_shiftLeft, Nat.testBit_xor]
  cases hd : decide (i ≥ n) <;> simp

theorem xor_xor_cancel (x y m : Nat) : (x ^^^ m) ^^^ (y ^^^ m) = x ^^^ y := by
  rw [Nat.xor_assoc, Nat.xor_comm y m, ← Nat.xor_assoc m m y, Nat.xor_self, Nat.zero_xor]

theorem and_high_bit_ne (c : Nat) : (c &&& 0x8000 ≠ 0) ↔ c.testBit 15 = true := by
  rw [show (0x8000 : Nat) = 2 ^ 15 by norm_num, Nat.and_two_pow]
  cases h : c.testBit 15 <;> simp [h]

theorem crcStep_eq (c : Nat) :
    crcStep c = c * 2 % 65536 ^^^ (if c.testBit 15 then 0x1021 else 0) := by
  unfold crcStep
  by_cases h : c.testBit 15 = true
  · rw [if_pos ((and_high_bit_ne c).mpr h), if_pos h]
  · rw [if_neg (fun hc => h ((and_high_bit_ne c).mp hc)), if_neg h, Nat.xor_zero]

theorem crcStep_lt (c : Nat) : crcStep c < 65536 := by
  rw [crcStep_eq]
  have h1 : c * 2 % 65536 < 2 ^ 16 := Nat.mod_lt _ (by norm_num)
  by_cases h : c.testBit 15 = true
  · rw [if_pos h]
    have h2 : (0x1021 : Nat) < 2 ^ 16 := by norm_num
    have := Nat.xor_lt_two_pow h1 h2
    simpa using this
  · rw [if_neg h, Nat.xor_zero]
    simpa using h1

theorem crcStep_linear (a b : Nat) : crcStep (a ^^^ b) = crcStep a ^^^ crcStep b := by
  rw [crcStep_eq, crcStep_eq, crcStep_eq, Nat.testBit_xor]
  have hmul : (a ^^^ b) * 2 = a * 2 ^^^ b * 2 := by
    simpa using xor_mul_pow_two a b 1
  have hmod : (a * 2 ^^^ b * 2) % 65536 = a * 2 % 65536 ^^^ b * 2 % 65536 := by
    simpa [show (65536 : Nat) = 2 ^ 16 by norm_num] using xor_mod_two_pow (a * 2) (b * 2) 16
  rw [hmul, hmod]
  cases ha : a.testBit 15 <;> cases hb : b.testBit 15 <;> norm_num
  · rw [Nat.xor_assoc]
  · rw [Nat.xor_assoc, Nat.xor_comm (b * 2 % 65536) 4129, ← Nat.xor_assoc]
  · exact (xor_xor_cancel _ _ _).symm

theorem crcIter_linear (n a b : Nat) :
    crcStep^[n] (a ^^^ b) = crcStep^[n] a ^^^ crcStep^[n] b := by
  induction n generalizing a b with
  | zero => rfl
  | succ n ih =>
    rw [Function.iterate_succ_apply', Function.iterate_succ_apply',
      Function.iterate_succ_apply', ih, crcStep_linear]

theorem crcRounds_linear (a b : Nat) :
    crcRounds (a ^^^ b) = crcRounds a ^^^ crcRounds b :=
  crcIter_linear 8 a b

theorem crcRounds_lt (c : Nat) : crcRounds c < 65536 := by
  have : crcRounds c = crcStep (crcStep^[7] c) := by
    rw [crcRounds, Function.iterate_succ_apply']
  rw [this]
  exact crcStep_lt _

theorem crcByteStep_lt (c b : Nat) : crcByteStep c b < 65536 := crcRounds_lt _

theorem crcByteStep_linear (c1 c2 b1 b2 : Nat) (hb1 : b1 < 256) (hb2 : b2 < 256) :
    crcByteStep (c1 ^^^ c2) (b1 ^^^ b2) = crcByteStep c1 b1 ^^^ crcByteStep c2 b2 := by
  have hxb : b1 ^^^ b2 < 256 := by
    have := Nat.xor_lt_two_pow (n := 8) (by simpa using hb1) (by simpa using hb2)
    simpa using this
  unfold crcByteStep
  rw [Nat.mod_eq_of_lt hxb, Nat.mod_eq_of_lt hb1, Nat.mod_eq_of_lt hb2]
  rw [show (b1 ^^^ b2) * 256 = b1 * 256 ^^^ b2 * 256 by simpa using xor_mul_pow_two b1 b2 8]
  rw [show c1 ^^^ c2 ^^^ (b1 * 256 ^^^ b2 * 256) = (c1 ^^^ b1 * 256) ^^^ (c2 ^^^ b2 * 256) by
    rw [Nat.xor_assoc c1 (b1 * 256) _, Nat.xor_assoc c1 c2 _, ← Nat.xor_assoc c2 _ _,
      Nat.xor_comm c2 (b1 * 256), Nat.xor_assoc (b1 * 256) c2 _]]
  exact crcRounds_linear _ _

theorem foldl_crc_linear :
    ∀ (l1 l2 : List Nat), l1.length = l2.length →
      (∀ b ∈ l1, b < 256) → (∀ b ∈ l2, b < 256) → ∀ c1 c2 : Nat,
      (List.zipWith (· ^^^ ·) l1 l2).foldl crcByteStep (c1 ^^^ c2) =
        l1.foldl crcByteStep c1 ^^^ l2.foldl crcByteStep c2 := by
  intro l1
  induction l1 with
  | nil =>
    intro l2 hlen _ _ c1 c2
    cases l2 with
    | nil => rfl
    | cons h t => simp at hlen
  | cons a t ih =>
    intro l2 hlen h1 h2 c1 c2
    cases l2 with
    | nil => simp at hlen
    | cons b u =>
      simp only [List.zipWith_cons_cons, List.foldl_cons]
      rw [show (a ^^^ b) = (a ^^^ b) from rfl,
        crcByteStep_linear c1 c2 a b (h1 a (by simp)) (h2 b (by simp))]
      exact ih u (by simpa using hlen) (fun x hx => h1 x (by simp [hx]))
        (fun x hx => h2 x (by simp [hx])) _ _

theorem crcRounds_zero : crcRounds 0 = 0 := by decide

theorem crcByteStep_zero_zero : crcByteStep 0 0 = 0 := by decide

theorem foldl_crc_zeros (k : Nat) :
    (List.replicate k 0).foldl crcByteStep 0 = 0 := by
  induction k with
  | zero => rfl
  | succ k ih => simpa [List.replicate_succ, crcByteStep_zero_zero] using ih

theorem crcStep_ne_zero (c : Nat) (hc : c < 65536) (hne : c ≠ 0) : crcStep c ≠ 0 := by
  rw [crcStep_eq]
  by_cases h : c.testBit 15 = true
  · rw [if_pos h]
    intro hz
    have : c * 2 % 65536 = 0x1021 := Nat.xor_eq_zero.mp hz
    omega
  · rw [if_neg h, Nat.xor_zero]
    have h15 : c / 32768 % 2 = 0 := by
      have hdm := Nat.testBit_to_div_mod (i := 15) (x := c)
      rw [hdm] at h
      simp only [show (2 : Nat) ^ 15 = 32768 by norm_num] at h
      simpa using h
    omega

theorem crcIter_ne_zero (n c : Nat) (hc : c < 65536) (hne : c ≠ 0) :
    crcStep^[n] c ≠ 0 ∧ crcStep^[n] c < 65536 := by
  induction n with
  | zero => exact ⟨hne, hc⟩
  | succ n ih =>
    rw [Function.iterate_succ_apply']
    exact ⟨crcStep_ne_zero _ ih.2 ih.1, crcStep_lt _⟩

theorem foldl_crc_err_ne_zero (k1 k2 d : Nat) (hd : d ≠ 0) (hd2 : d < 256) :
    (List.replicate k1 0 ++ d :: List.replicate k2 0).foldl crcByteStep 0 ≠ 0 := by
  rw [List.foldl_append, foldl_crc_zeros, List.foldl_cons]
  have h1 : crcByteStep 0 d = crcRounds (d * 256) := by
    unfold crcByteStep
    rw [Nat.zero_xor, Nat.mod_eq_of_lt hd2]
  have hlt : d * 256 < 65536 := by omega
  have hnz : d * 256 ≠ 0 := by positivity
  have base := crcIter_ne_zero 8 (d * 256) hlt hnz
  rw [h1]
  have : ∀ (k : Nat) (c : Nat), c ≠ 0 → c < 65536 →
      (List.replicate k 0).foldl crcByteStep c ≠ 0 := by
    intro k
    induction k with
    | zero => intro c h _; exact h
    | succ k ih =>
      intro c h hlt'
      rw [List.replicate_succ, List.foldl_cons]
      have hc0 : crcByteStep c 0 = crcRounds c := by
        unfold crcByteStep
        rw [Nat.zero_mod, Nat.zero_mul, Nat.xor_zero]
      rw [hc0]
      exact ih _ (crcIter_ne_zero 8 c hlt' h).1 (crcIter_ne_zero 8 c hlt' h).2
  exact this k2 _ base.1 base.2

theorem zipWith_xor_replicate_zero (l : List Nat) :
    List.zipWith (· ^^^ ·) l (List.replicate l.length 0) = l := by
  induction l with
  | nil => rfl
  | cons a t ih => simpa [List.replicate_succ] using ih

theorem calculateCRC16_lt (l : List Nat) : calculateCRC16 l < 65536 := by
  unfold calculateCRC16
  cases l with
  | nil => norm_num
  | cons a t =>
    rw [List.foldl_cons]
    have : ∀ (u : List Nat) (c : Nat), c < 65536 → u.foldl crcByteStep c < 65536 := by
      intro u
      induction u with
      | nil => intro c h; exact h
      | cons b v ih => intro c _; exact ih _ (crcByteStep_lt c b)
    exact this t _ (crcByteStep_lt _ a)

/-- Corrupting one byte of the CRC input always changes the CRC. -/
theorem crc_flip_ne (pre suf : List Nat) (b e : Nat)
    (hb : b < 256) (he : e < 256) (hne : e ≠ b)
    (hpre : ∀ x ∈ pre, x < 256) (hsuf : ∀ x ∈ suf, x < 256) :
    calculateCRC16 (pre ++ e :: suf) ≠ calculateCRC16 (pre ++ b :: suf) := by
  have hbe : b ^^^ e ≠ 0 := fun h => hne (Nat.xor_eq_zero.mp h).symm
  have hbe2 : b ^^^ e < 256 := by
    have := Nat.xor_lt_two_pow (n := 8) (by simpa using hb) (by simpa using he)
    simpa using this
  have hzip :
      List.zipWith (· ^^^ ·) (pre ++ b :: suf)
        (List.replicate pre.length 0 ++ (b ^^^ e) :: List.replicate suf.length 0) =
        pre ++ e :: suf := by
    rw [List.zipWith_append _ _ _ _ _ (by simp)]
    rw [zipWith_xor_replicate_zero]
    simp only [List.zipWith_cons_cons, zipWith_xor_replicate_zero]
    rw [← Nat.xor_assoc, Nat.xor_self, Nat.zero_xor]
  have herr : (List.replicate pre.length 0 ++
      (b ^^^ e) :: List.replicate suf.length 0).foldl crcByteStep 0 ≠ 0 :=
    foldl_crc_err_ne_zero _ _ _ hbe hbe2
  have hlin := foldl_crc_linear (pre ++ b :: suf)
    (List.replicate pre.length 0 ++ (b ^^^ e) :: List.replicate suf.length 0)
    (by simp) (by
      intro x hx
      rcases List.mem_append.mp hx with h | h
      · exact hpre x h
      · rcases List.mem_cons.mp h with h | h
        · subst h; exact hb
        · exact hsuf x h)
    (by
      intro x hx
      rcases List.mem_append.mp hx with h | h
      · have := List.eq_of_mem_replicate h
        omega
      · rcases List.mem_cons.mp h with h | h
        · subst h; exact hbe2
        · have := List.eq_of_mem_replicate h
          omega)
    0xFFFF 0
  rw [Nat.xor_zero] at hlin
  rw [hzip] at hlin
  unfold calculateCRC16
  rw [hlin]
  intro hcontra
  apply herr
  have : (pre ++ b :: suf).foldl crcByteStep 0xFFFF ^^^
      (List.replicate pre.length 0 ++ (b ^^^ e) :: List.replicate suf.length 0).foldl
        crcByteStep 0 ^^^ (pre ++ b :: suf).foldl crcByteStep 0xFFFF = 0 := by
    rw [hcontra, Nat.xor_self]
  rw [Nat.xor_comm _ ((List.replicate pre.length 0 ++ _).foldl crcByteStep 0),
    Nat.xor_assoc, Nat.xor_self, Nat.xor_zero] at this
  exact this

/-! ## Frame decode lemmas -/

theorem map_mod_self (bs : List Nat) (h : ∀ b ∈ bs, b < 256) :
    bs.map (· % 256) = bs := by
  induction bs with
  | nil => rfl
  | cons a t ih =>
    simp only [List.map_cons]
    rw [Nat.mod_eq_of_lt (h a (by simp)), ih (fun x hx => h x (by simp [hx]))]

theorem arrivalsAt0_cons (b : Nat) (bs : List Nat) :
    arrivalsAt0 (b :: bs) = (0, b) :: arrivalsAt0 bs := rfl

theorem arrivalsAt0_append (bs cs : List Nat) :
    arrivalsAt0 (bs ++ cs) = arrivalsAt0 bs ++ arrivalsAt0 cs := by
  simp [arrivalsAt0]

/-- The payload loop reads every byte of an already-delivered stream, one per
millisecond. -/
theorem readData_all0 (bs : List Nat) :
    ∀ (tail : List Arrival) (t dl : Nat), t + bs.length ≤ dl →
      readData (arrivalsAt0 bs ++ tail) t dl bs.length =
        some (bs.map (· % 256), tail, t + bs.length) := by
  induction bs with
  | nil => intro tail t dl _; simp [arrivalsAt0, readData]
  | cons b bs ih =>
    intro tail t dl h
    rw [arrivalsAt0_cons, List.cons_append]
    show readData ((0, b) :: (arrivalsAt0 bs ++ tail)) t dl (bs.length + 1) = _
    unfold readData
    have hmax : max t 0 = t := by omega
    simp only [List.length_cons] at h
    rw [hmax, if_neg (by omega)]
    rw [ih tail (t + 1) dl (by omega)]
    simp only [List.map_cons, List.length_cons]
    have harith : t + 1 + bs.length = t + (bs.length + 1) := by omega
    rw [harith]

/-- When fewer than `need` bytes arrive before the deadline, the payload loop
comes up short. -/
theorem readData_none_of_short :
    ∀ (l : List Arrival) (t dl need : Nat),
      l.countP (fun a => decide (a.1 < dl)) < need → readData l t dl need = none := by
  intro l
  induction l with
  | nil =>
    intro t dl need h
    match need with
    | 0 => simp at h
    | n + 1 => rfl
  | cons a rest ih =>
    intro t dl need h
    match need with
    | 0 => simp at h
    | n + 1 =>
      obtain ⟨ta, b⟩ := a
      unfold readData
      by_cases hdl : dl ≤ max t ta
      · rw [if_pos hdl]
      · rw [if_neg hdl]
        have hta : ta < dl := by omega
        have hcount : rest.countP (fun a => decide (a.1 < dl)) < n := by
          have hc : ((ta, b) :: rest).countP (fun a => decide (a.1 < dl)) =
              rest.countP (fun a => decide (a.1 < dl)) + 1 := by
            rw [List.countP_cons]
            simp [hta]
          rw [hc] at h
          omega
        rw [ih (max t ta + 1) dl n hcount]

/-- Decoding a frame-shaped, fully delivered stream reaches the CRC check and
is decided by it. -/
theorem receiveFramed_format (bs : List Nat) (x y : Nat) (tb : List Nat)
    (hlen : bs.length ≤ 256) (hb : ∀ b ∈ bs, b < 256) (hx : x < 256) (hy : y < 256) :
    receiveFramed
      (arrivalsAt0 ([MIA_START_BYTE, bs.length / 256 % 256, bs.length % 256] ++ bs ++
        x :: y :: tb)) 1000 =
    if calculateCRC16 bs = x * 256 + y then
      match scanEnd (arrivalsAt0 tb) bs.length (bs.length + 100) with
      | some _ => .ok bs
      | none => .error .errorInvalidMessage
    else .error .errorCrcMismatch := by
  have hheader : arrivalsAt0 ([MIA_START_BYTE, bs.length / 256 % 256, bs.length % 256] ++
      bs ++ x :: y :: tb) =
      (0, MIA_START_BYTE) :: (0, bs.length / 256 % 256) :: (0, bs.length % 256) ::
        (arrivalsAt0 bs ++ ((0, x) :: (0, y) :: arrivalsAt0 tb)) := by
    simp [arrivalsAt0]
  rw [hheader]
  have hscan : scanStart ((0, MIA_START_BYTE) :: (0, bs.length / 256 % 256) ::
      (0, bs.length % 256) :: (arrivalsAt0 bs ++ ((0, x) :: (0, y) :: arrivalsAt0 tb))) 0 1000 =
      some ((0, bs.length / 256 % 256) :: (0, bs.length % 256) ::
        (arrivalsAt0 bs ++ ((0, x) :: (0, y) :: arrivalsAt0 tb)), 0) := by
    simp [scanStart, MIA_START_BYTE]
  have hread := readData_all0 bs ((0, x) :: (0, y) :: arrivalsAt0 tb) 0 (0 + 1000)
    (by omega)
  rw [map_mod_self bs hb] at hread
  have hmsg : bs.length / 256 % 256 % 256 * 256 + bs.length % 256 % 256 = bs.length := by
    omega
  simp only [receiveFramed, hscan]
  have h00 : (0:Nat) ≤ 0 ∧ (0:Nat) ≤ 0 := ⟨Nat.le_refl 0, Nat.le_refl 0⟩
  rw [if_pos h00, hmsg]
  have hov : ¬ (MIA_MAX_MESSAGE_SIZE < bs.length) := by
    simp only [MIA_MAX_MESSAGE_SIZE]
    omega
  rw [if_neg hov, hread]
  simp only [Nat.zero_add]
  have h2 : 0 ≤ bs.length ∧ 0 ≤ bs.length := ⟨Nat.zero_le _, Nat.zero_le _⟩
  rw [if_pos h2]
  rw [Nat.mod_eq_of_lt hx, Nat.mod_eq_of_lt hy]



theorem take_getD_drop : ∀ (l : List Nat) (j : Nat), j < l.length →
    l.take j ++ l.getD j 0 :: l.drop (j + 1) = l := by
  intro l
  induction l with
  | nil => intro j h; simp at h
  | cons a t ih =>
    intro j h
    match j with
    | 0 => simp
    | j + 1 =>
      simp only [List.take_succ_cons, List.getD_cons_succ, List.drop_succ_cons,
        List.cons_append, List.cons.injEq, true_and]
      exact ih j (by simpa using h)

theorem scanEnd_imm (rest : List Arrival) (t dl : Nat) (h : t < dl) :
    scanEnd ((0, MIA_END_BYTE) :: rest) t dl = some () := by
  unfold scanEnd
  have hmax : max t 0 = t := by omega
  rw [hmax, if_neg (by omega), if_pos (by norm_num [MIA_END_BYTE])]

theorem receiveMessage_error (arr : List Arrival) (tm : Nat) (er : MIAErrorCode)
    (h : receiveFramed arr tm = .error er) :
    receiveMessage arr tm = .error er := by
  unfold receiveMessage
  rw [h]

/-- Decoding a fully delivered frame whose trailing CRC disagrees with the
CRC of its data section fails with `CrcMismatch`. -/
theorem receiveFramed_format_bad (bs : List Nat) (x y : Nat) (tb : List Nat)
    (hlen : bs.length ≤ 256) (hb : ∀ b ∈ bs, b < 256) (hx : x < 256) (hy : y < 256)
    (hcrc : calculateCRC16 bs ≠ x * 256 + y) :
    receiveFramed
      (arrivalsAt0 ([MIA_START_BYTE, bs.length / 256 % 256, bs.length % 256] ++ bs ++
        x :: y :: tb)) 1000 = .error .errorCrcMismatch := by
  rw [receiveFramed_format bs x y tb hlen hb hx hy, if_neg hcrc]

/-- Decoding a fully delivered frame with a matching CRC and the end sentinel
succeeds with the data section. -/
theorem receiveFramed_format_good (bs : List Nat) (x y : Nat)
    (hlen : bs.length ≤ 256) (hb : ∀ b ∈ bs, b < 256) (hx : x < 256) (hy : y < 256)
    (hcrc : calculateCRC16 bs = x * 256 + y) :
    receiveFramed
      (arrivalsAt0 ([MIA_START_BYTE, bs.length / 256 % 256, bs.length % 256] ++ bs ++
        x :: y :: [MIA_END_BYTE])) 1000 = .ok bs := by
  rw [receiveFramed_format bs x y [MIA_END_BYTE] hlen hb hx hy, if_pos hcrc]
  rw [show arrivalsAt0 [MIA_END_BYTE] = [(0, MIA_END_BYTE)] from rfl]
  rw [scanEnd_imm [] bs.length (bs.length + 100) (by omega)]


/-- C1 (amended): for every message type byte and every payload of length
0..248, serially decoding the bytes produced by encoding reproduces
`(type, payload)` exactly, and replacing any single payload or CRC byte of
the encoded frame by a different byte makes decode fail with `CrcMismatch`.
The payload bound is 248 = `MIA_MAX_MESSAGE_SIZE - 8`: `sendMessage` rejects
anything longer, so the spec's range 0..256 holds only up to 248. -/
theorem c1_crc_roundtrip_and_flip (ty : Nat) (payload : List Nat) (hty : ty < 256)
    (hlen : payload.length ≤ 248) (hb : ∀ b ∈ payload, b < 256) :
    sendMessage ty payload = some (frameBytes ty payload) ∧
    receiveMessage (arrivalsAt0 (frameBytes ty payload)) MIA_DEFAULT_TIMEOUT =
      Except.ok (ty, payload) ∧
    ∀ i e, 4 ≤ i → i < payload.length + 6 → e < 256 →
      e ≠ (frameBytes ty payload).getD i 0 →
      receiveMessage (arrivalsAt0 ((frameBytes ty payload).set i e)) MIA_DEFAULT_TIMEOUT =
        Except.error MIAErrorCode.errorCrcMismatch := by
  have hcrclt : calculateCRC16 (ty :: payload) < 65536 := calculateCRC16_lt _
  have hframe : frameBytes ty payload =
      [MIA_START_BYTE, (ty :: payload).length / 256 % 256, (ty :: payload).length % 256] ++
        (ty :: payload) ++
        (calculateCRC16 (ty :: payload) / 256 % 256) ::
          (calculateCRC16 (ty :: payload) % 256) :: [MIA_END_BYTE] := by
    simp [frameBytes, Nat.mod_eq_of_lt hty]
  have hbs : ∀ b ∈ ty :: payload, b < 256 := by
    intro b hmem
    rcases List.mem_cons.mp hmem with h | h
    · subst h; exact hty
    · exact hb b h
  have hlen1 : (ty :: payload).length ≤ 256 := by
    simp only [List.length_cons]
    omega
  have hchi : calculateCRC16 (ty :: payload) / 256 % 256 < 256 := Nat.mod_lt _ (by norm_num)
  have hclo : calculateCRC16 (ty :: payload) % 256 < 256 := Nat.mod_lt _ (by norm_num)
  have hrecon : calculateCRC16 (ty :: payload) / 256 % 256 * 256 +
      calculateCRC16 (ty :: payload) % 256 = calculateCRC16 (ty :: payload) := by
    omega
  refine ⟨?_, ?_, ?_⟩
  · unfold sendMessage
    rw [if_neg (by simp only [MIA_MAX_MESSAGE_SIZE]; omega),
      if_neg (by simp only [MIA_MAX_MESSAGE_SIZE]; omega)]
  · show receiveMessage _ 1000 = _
    rw [hframe]
    unfold receiveMessage
    rw [receiveFramed_format_good (ty :: payload) _ _ hlen1 hbs hchi hclo hrecon.symm ]
  · intro i e h4 hiub he hne
    show receiveMessage _ 1000 = _
    apply receiveMessage_error
    have hgetDbase : (frameBytes ty payload).getD i 0 =
        ((ty :: payload) ++ (calculateCRC16 (ty :: payload) / 256 % 256) ::
          (calculateCRC16 (ty :: payload) % 256) :: [MIA_END_BYTE]).getD (i - 3) 0 := by
      rw [hframe, List.append_assoc]
      rw [List.getD_append_right _ _ _ _ (by simp only [List.length_cons,
        List.length_nil, List.length_append]; omega)]
      norm_num
    have hsetbase : (frameBytes ty payload).set i e =
        [MIA_START_BYTE, (ty :: payload).length / 256 % 256, (ty :: payload).length % 256] ++
          ((ty :: payload) ++ (calculateCRC16 (ty :: payload) / 256 % 256) ::
            (calculateCRC16 (ty :: payload) % 256) :: [MIA_END_BYTE]).set (i - 3) e := by
      rw [hframe, List.append_assoc]
      rw [List.set_append_right _ _ (by simp only [List.length_cons, List.length_nil]; omega)]
      norm_num
    rcases show i - 4 < payload.length ∨ i - 4 = payload.length ∨
        i - 4 = payload.length + 1 from by omega with hj | hj | hj
    · -- a payload byte is replaced
      have hi3 : i - 3 = (i - 4) + 1 := by omega
      have hsetA : ((ty :: payload) ++ (calculateCRC16 (ty :: payload) / 256 % 256) ::
            (calculateCRC16 (ty :: payload) % 256) :: [MIA_END_BYTE]).set (i - 3) e =
          (ty :: payload.set (i - 4) e) ++ (calculateCRC16 (ty :: payload) / 256 % 256) ::
            (calculateCRC16 (ty :: payload) % 256) :: [MIA_END_BYTE] := by
        rw [List.set_append_left _ _ (by simp only [List.length_cons]; omega), hi3,
          List.set_cons_succ]
      have hgetA : (frameBytes ty payload).getD i 0 = payload.getD (i - 4) 0 := by
        rw [hgetDbase, hi3, List.getD_append _ _ _ _ (by simp only [List.length_cons]; omega),
          List.getD_cons_succ]
      have hlenset : (ty :: payload).length = (ty :: payload.set (i - 4) e).length := by
        simp only [List.length_cons, List.length_set]
      have hbset : ∀ b ∈ ty :: payload.set (i - 4) e, b < 256 := by
        intro b hmem
        rcases List.mem_cons.mp hmem with h | h
        · subst h; exact hty
        · rcases List.mem_or_eq_of_mem_set h with h | h
          · exact hb b h
          · subst h; exact he
      have hcrcA : calculateCRC16 (ty :: payload.set (i - 4) e) ≠
          calculateCRC16 (ty :: payload) := by
        have hdec : payload.take (i - 4) ++ payload.getD (i - 4) 0 ::
            payload.drop (i - 4 + 1) = payload := take_getD_drop payload (i - 4) hj
        have hsetd : payload.set (i - 4) e =
            payload.take (i - 4) ++ e :: payload.drop (i - 4 + 1) := by
          rw [List.set_eq_take_append_cons_drop, if_pos hj]
        have hflip := crc_flip_ne (ty :: payload.take (i - 4)) (payload.drop (i - 4 + 1))
          (payload.getD (i - 4) 0) e
          (by
            rw [List.getD_eq_getElem payload 0 hj]
            exact hb _ (List.getElem_mem hj))
          he
          (by rw [← hgetA]; exact hne)
          (by
            intro x hx
            rcases List.mem_cons.mp hx with h | h
            · subst h; exact hty
            · exact hb x (List.mem_of_mem_take h))
          (fun x hx => hb x (List.mem_of_mem_drop hx))
        rw [List.cons_append, List.cons_append] at hflip
        rw [hsetd, show (ty :: payload) = ty :: (payload.take (i - 4) ++
          payload.getD (i - 4) 0 :: payload.drop (i - 4 + 1)) from by rw [hdec]]
        exact hflip
      rw [hsetbase, hsetA, ← List.append_assoc]
      rw [show [MIA_START_BYTE, (ty :: payload).length / 256 % 256,
        (ty :: payload).length % 256] ++ (ty :: payload.set (i - 4) e) =
        [MIA_START_BYTE, (ty :: payload.set (i - 4) e).length / 256 % 256,
          (ty :: payload.set (i - 4) e).length % 256] ++ (ty :: payload.set (i - 4) e) from by
        rw [← hlenset]]
      rw [List.append_assoc]
      apply receiveFramed_format_bad _ _ _ _ (by rw [← hlenset]; exact hlen1) hbset hchi hclo
      rw [hrecon]
      exact hcrcA
    · -- the high CRC byte is replaced
      have hi3 : i - 3 = (ty :: payload).length := by
        simp only [List.length_cons]
        omega
      have hsetB : ((ty :: payload) ++ (calculateCRC16 (ty :: payload) / 256 % 256) ::
            (calculateCRC16 (ty :: payload) % 256) :: [MIA_END_BYTE]).set (i - 3) e =
          (ty :: payload) ++ e :: (calculateCRC16 (ty :: payload) % 256) :: [MIA_END_BYTE] := by
        rw [List.set_append_right _ _ (by omega), hi3, Nat.sub_self]
        rfl
      have hgetB : (frameBytes ty payload).getD i 0 =
          calculateCRC16 (ty :: payload) / 256 % 256 := by
        rw [hgetDbase, List.getD_append_right _ _ _ _ (by omega), hi3, Nat.sub_self,
          List.getD_cons_zero]
      rw [hsetbase, hsetB]
      apply receiveFramed_format_bad _ _ _ _ hlen1 hbs he hclo
      rw [hgetB] at hne
      omega
    · -- the low CRC byte is replaced
      have hi3 : i - 3 = (ty :: payload).length + 1 := by
        simp only [List.length_cons]
        omega
      have hsetC : ((ty :: payload) ++ (calculateCRC16 (ty :: payload) / 256 % 256) ::
            (calculateCRC16 (ty :: payload) % 256) :: [MIA_END_BYTE]).set (i - 3) e =
          (ty :: payload) ++ (calculateCRC16 (ty :: payload) / 256 % 256) ::
            e :: [MIA_END_BYTE] := by
        rw [List.set_append_right _ _ (by omega), hi3, Nat.add_sub_cancel_left]
        rfl
      have hgetC : (frameBytes ty payload).getD i 0 =
          calculateCRC16 (ty :: payload) % 256 := by
        rw [hgetDbase, List.getD_append_right _ _ _ _ (by omega), hi3,
          Nat.add_sub_cancel_left, List.getD_cons_succ, List.getD_cons_zero]
      rw [hsetbase, hsetC]
      apply receiveFramed_format_bad _ _ _ _ hlen1 hbs hchi he
      rw [hgetC] at hne
      omega


set_option maxRecDepth 10000 in
/-- C1 witness: concrete round-trip and flip for type 3, payload `[1, 2]`. -/
theorem c1_witness :
    sendMessage 3 [1, 2] = some (frameBytes 3 [1, 2]) ∧
    receiveMessage (arrivalsAt0 (frameBytes 3 [1, 2])) MIA_DEFAULT_TIMEOUT =
      Except.ok (3, [1, 2]) ∧
    receiveMessage (arrivalsAt0 ((frameBytes 3 [1, 2]).set 4 0)) MIA_DEFAULT_TIMEOUT =
      Except.error MIAErrorCode.errorCrcMismatch := by
  have h := c1_crc_roundtrip_and_flip 3 [1, 2] (by decide) (by decide) (by decide)
  exact ⟨h.1, h.2.1, h.2.2 4 0 (by decide) (by decide) (by decide) (by decide)⟩

/-- C1 counterexample to the spec's payload range 0..256: a 249-byte payload
is rejected by `sendMessage` (249 > `MIA_MAX_MESSAGE_SIZE` - 8), so encoding
produces no frame at all and the round-trip fails. -/
theorem c1_counterexample :
    (List.replicate 249 0).length ≤ 256 ∧ sendMessage 0 (List.replicate 249 0) = none := by
  constructor
  · rw [List.length_replicate]
    norm_num
  · unfold sendMessage
    rw [if_pos (by rw [List.length_replicate]; norm_num [MIA_MAX_MESSAGE_SIZE])]

/-- C2 (amended): when a valid start byte and declared length have been read
but fewer than the declared number of payload bytes arrive within the fresh
timeout window that starts when payload reading begins
(`dataStartTime = millis()`), serial decode fails with `Timeout` and no other
error. -/
theorem c2_short_read_timeout (arr : List Arrival) (timeout : Nat)
    (ta1 b1 ta2 b2 : Nat) (rest2 : List Arrival) (t1 : Nat)
    (hscan : scanStart arr 0 timeout = some ((ta1, b1) :: (ta2, b2) :: rest2, t1))
    (hav1 : ta1 ≤ t1) (hav2 : ta2 ≤ t1)
    (hlen : b1 % 256 * 256 + b2 % 256 ≤ MIA_MAX_MESSAGE_SIZE)
    (hshort : rest2.countP (fun a => decide (a.1 < t1 + timeout)) <
      b1 % 256 * 256 + b2 % 256) :
    receiveMessage arr timeout = .error .errorTimeout := by
  apply receiveMessage_error
  simp only [receiveFramed, hscan]
  rw [if_pos ⟨hav1, hav2⟩]
  simp only [MIA_MAX_MESSAGE_SIZE] at hlen
  rw [if_neg (by simp only [MIA_MAX_MESSAGE_SIZE]; omega)]
  rw [readData_none_of_short rest2 t1 (t1 + timeout) _ hshort]

/-- C2 witness: declared length 2, only one byte ever arrives. -/
theorem c2_witness :
    receiveMessage [(0, 170), (0, 0), (0, 2), (0, 77)] 1000 =
      .error .errorTimeout := by
  apply c2_short_read_timeout _ _ 0 0 0 2 [(0, 77)] 0
  · decide
  · decide
  · decide
  · decide
  · decide

set_option maxRecDepth 10000 in
/-- C2 counterexample to the "same timeout window" reading: with a 1000 ms
timeout, the header arrives at t=900 and both declared data bytes arrive only
at t=1500/1501 — after the window that started when decoding began — yet
decode succeeds, because the data-read loop restarts its own 1000 ms window
at t=900. -/
theorem c2_counterexample :
    (([(1500, 6), (1501, 66)] : List Arrival).countP
      (fun a => decide (a.1 < MIA_DEFAULT_TIMEOUT)) = 0) ∧
    receiveMessage
      [(900, 170), (900, 0), (900, 2), (1500, 6), (1501, 66),
       (1501, 223), (1501, 47), (1501, 85)] MIA_DEFAULT_TIMEOUT =
      Except.ok (6, [66]) := by
  constructor
  · decide
  · rfl

/-- C3 counterexample: in the successful-dispatch trace of `callService` the
HTTP call happens while the registry lock is held — the `lock_guard` spans
the whole function body. -/
theorem c3_counterexample :
    httpCallWhileLocked (callServiceEvents true true) = true := by decide

/-- C3 (amended): `callService` acquires the registry lock exactly once and,
whenever the service is found, both the remote HTTP call and the
health/last-seen updates execute while that single lock is held; the lock is
not released before the call and no fresh acquisition happens afterwards. -/
theorem c3_lock_held_across_call (found ok : Bool) :
    lockAcquireCount (callServiceEvents found ok) = 1 ∧
    httpCallWhileLocked (callServiceEvents found ok) = found ∧
    healthUpdateWhileLocked (callServiceEvents found ok) = found := by
  cases found <;> cases ok <;> exact ⟨by decide, by decide, by decide⟩

/-- C6: an intent result with confidence strictly below 0.1 short-circuits to
the fixed "could not understand" response and issues no dispatch call,
whatever the intent label and whatever the dispatch oracle would answer. -/
theorem c6_low_confidence_no_dispatch
    (call : String → String → List (String × String) → Option String)
    (r : IntentResult) (h : r.confidence < (1 : ℚ) / 10) :
    routeCommand call r =
      ("Sorry, I couldn't understand the command. Please try again.", []) := by
  unfold routeCommand
  rw [if_pos h]

/-- C6 witness: confidence 0.05 with intent `hardware_control` and an oracle
that would answer every call. -/
theorem c6_witness :
    routeCommand (fun _ _ _ => some "done")
      ⟨"turn on pin 18", "hardware_control", (1 : ℚ) / 20, []⟩ =
      ("Sorry, I couldn't understand the command. Please try again.", []) :=
  c6_low_confidence_no_dispatch (fun _ _ _ => some "done")
    ⟨"turn on pin 18", "hardware_control", (1 : ℚ) / 20, []⟩ (by norm_num)

/-- C8 counterexample: a buffer whose union discriminator is unrecognized
(nonzero, unknown value) is classified `Unknown` even though the legacy
`DownloadRequest` verifier accepts it — the `default:` branch of the switch
fires and the legacy fallback is never consulted. -/
theorem c8_counterexample :
    classifyRequest ⟨.unrecognized, true, true, true, true⟩ = RequestType.Unknown ∧
    classifyRequest ⟨.unrecognized, true, true, true, true⟩ ≠ RequestType.Download := by
  decide

/-- C8 (amended): the decoder reads the union discriminator first; a known
tag decides the type outright, an unrecognized tag yields `Unknown`, and only
an absent (`Request_NONE`) tag falls back to the concrete-type verifiers in
the fixed order Download, Status, Abort, Shutdown. -/
theorem c8_envelope_classification (vd vs va vsh : Bool) :
    classifyRequest ⟨.none_, vd, vs, va, vsh⟩ =
      (if vd then RequestType.Download else if vs then RequestType.Status
       else if va then RequestType.Abort else if vsh then RequestType.Shutdown
       else RequestType.Unknown) ∧
    classifyRequest ⟨.unrecognized, vd, vs, va, vsh⟩ = RequestType.Unknown ∧
    classifyRequest ⟨.downloadRequest, vd, vs, va, vsh⟩ = RequestType.Download ∧
    classifyRequest ⟨.downloadStatusRequest, vd, vs, va, vsh⟩ = RequestType.Status ∧
    classifyRequest ⟨.downloadAbortRequest, vd, vs, va, vsh⟩ = RequestType.Abort ∧
    classifyRequest ⟨.shutdownRequest, vd, vs, va, vsh⟩ = RequestType.Shutdown :=
  ⟨rfl, rfl, rfl, rfl, rfl, rfl⟩

/-- C10: every inbound `HandshakeRequest` with a payload of at least 3 bytes
is answered with success byte 1 and marks the handshake complete, for every
value of the protocol-version byte — the parsed version is never compared
against `MIA_PROTOCOL_VERSION`, so a mismatched version is accepted exactly
like the matching one. -/
theorem c10_handshake_ignores_version (dt ver r : Nat) (rs : List Nat) :
    (waitForHandshakeOutcome 7 (dt :: ver :: r :: rs)).map (fun x => x.2) =
      some ([1, 0], true) ∧
    (waitForHandshakeOutcome 7 (dt :: ver :: r :: rs)).map (fun x => x.2) =
      (waitForHandshakeOutcome 7 (dt :: MIA_PROTOCOL_VERSION :: r :: rs)).map
        (fun x => x.2) := by
  constructor <;>
    simp [waitForHandshakeOutcome, parseHandshake]


/-- C4 (amended): for every admissible iteration order and every input text,
the confidence equals the matched-keyword count of the winning intent divided
by the whitespace-token count, and is nonnegative — but it is not bounded by
1, because keywords are matched as substrings of the whole text and one token
can contain several keywords. -/
theorem c4_confidence_formula (order : List String) (text : String) :
    0 ≤ (parseCommandWith order text).confidence ∧
    (parseCommandWith order text).confidence =
      (intentScore (lowerChars text) (parseCommandWith order text).intent : ℚ) /
        ((splitWordsL (lowerChars text)).length : ℚ) := by
  have hunk : ∀ s : List Char, intentScore s "unknown" = 0 := fun _ => rfl
  simp only [parseCommandWith]
  by_cases hw : (splitWordsL (lowerChars text)).isEmpty
  · rw [if_pos hw]
    refine ⟨le_refl 0, ?_⟩
    rw [hunk (lowerChars text)]
    norm_num
  · rw [if_neg hw]
    cases hp : positiveIntents order (lowerChars text) with
    | nil =>
      refine ⟨le_refl 0, ?_⟩
      rw [hunk (lowerChars text)]
      norm_num
    | cons first rest =>
      refine ⟨?_, rfl⟩
      exact div_nonneg (Nat.cast_nonneg _) (Nat.cast_nonneg _)

set_option maxRecDepth 40000 in
/-- C4 counterexample: the single-token text "playmusicsong" contains the
keywords "play", "music" and "song" of `play_music` as substrings, so the
score is 3 and the token count is 1 — confidence 3.0, outside [0, 1]. -/
theorem c4_counterexample :
    (parseCommandWith insertionOrder "playmusicsong").confidence = 3 ∧
    ¬ (parseCommandWith insertionOrder "playmusicsong").confidence ≤ 1 := by
  have h := (c4_confidence_formula insertionOrder "playmusicsong").2
  have hintent : (parseCommandWith insertionOrder "playmusicsong").intent =
      "play_music" := by decide
  have hscore : intentScore (lowerChars "playmusicsong") "play_music" = 3 := by decide
  have hlen : (splitWordsL (lowerChars "playmusicsong")).length = 1 := by decide
  rw [hintent, hscore, hlen] at h
  norm_num at h
  rw [h]
  norm_num


theorem foldl_max_ge (f : String → Nat) :
    ∀ (rest : List String) (first : String),
      f first ≤ f (rest.foldl (fun acc i => if f acc < f i then i else acc) first) := by
  intro rest
  induction rest with
  | nil => intro first; exact Nat.le_refl _
  | cons i rest ih =>
    intro first
    rw [List.foldl_cons]
    refine Nat.le_trans ?_ (ih (if f first < f i then i else first))
    by_cases hfi : f first < f i
    · rw [if_pos hfi]; exact Nat.le_of_lt hfi
    · rw [if_neg hfi]

/-- `std::max_element` with comparator `a.second < b.second` returns the
first element of the iteration achieving the maximal score: everything
before it scores strictly less, everything after at most as much. -/
theorem foldl_first_max (f : String → Nat) :
    ∀ (rest : List String) (first : String),
      ∃ l1 l2, first :: rest =
        l1 ++ (rest.foldl (fun acc i => if f acc < f i then i else acc) first) :: l2 ∧
        (∀ x ∈ l1, f x < f (rest.foldl (fun acc i => if f acc < f i then i else acc) first)) ∧
        (∀ x ∈ l2, f x ≤ f (rest.foldl (fun acc i => if f acc < f i then i else acc) first)) := by
  intro rest
  induction rest with
  | nil =>
    intro first
    exact ⟨[], [], rfl, by simp, by simp⟩
  | cons i rest ih =>
    intro first
    rw [List.foldl_cons]
    by_cases hfi : f first < f i
    · rw [if_pos hfi]
      obtain ⟨l1, l2, hdec, h1, h2⟩ := ih i
      refine ⟨first :: l1, l2, ?_, ?_, h2⟩
      · rw [List.cons_append, ← hdec]
      · intro x hx
        rcases List.mem_cons.mp hx with hx | hx
        · subst hx
          exact Nat.lt_of_lt_of_le hfi (foldl_max_ge f rest i)
        · exact h1 x hx
    · rw [if_neg hfi]
      obtain ⟨l1, l2, hdec, h1, h2⟩ := ih first
      have hle : f i ≤ f first := Nat.le_of_not_lt hfi
      cases l1 with
      | nil =>
        simp only [List.nil_append] at hdec
        have hfirst := (List.cons.injEq _ _ _ _).mp hdec
        refine ⟨[], i :: l2, ?_, by simp, ?_⟩
        · rw [List.nil_append, ← hfirst.1, List.cons.injEq, List.cons.injEq]
          exact ⟨rfl, rfl, hfirst.2⟩
        · intro x hx
          rcases List.mem_cons.mp hx with hx | hx
          · subst hx
            exact Nat.le_trans hle (Nat.le_of_eq (congrArg f hfirst.1))
          · exact h2 x hx
      | cons a l1t =>
        rw [List.cons_append] at hdec
        have hinj := (List.cons.injEq _ _ _ _).mp hdec
        refine ⟨first :: i :: l1t, l2, ?_, ?_, h2⟩
        · rw [List.cons_append, List.cons_append, List.cons.injEq, List.cons.injEq]
          exact ⟨rfl, rfl, hinj.2⟩
        · intro x hx
          have hfirstlt : f first < f (List.foldl
              (fun acc i => if f acc < f i then i else acc) first rest) := by
            have := h1 a (by simp)
            rw [← hinj.1] at this
            exact this
          rcases List.mem_cons.mp hx with hx | hx
          · subst hx; exact hfirstlt
          · rcases List.mem_cons.mp hx with hx | hx
            · subst hx; exact Nat.lt_of_le_of_lt hle hfirstlt
            · exact h1 x (by simp [hx])

/-- C5 (amended): when scores tie, `parseCommand` returns the first intent of
the score map's iteration order achieving the maximal score — the winner is
determined by the (unspecified) hash-map iteration order, not by the static
table's insertion order.  For any iteration order `order`, the winner occurs
in the positive-score list with everything before it scoring strictly less
and everything after scoring at most as much. -/
theorem c5_tie_break_follows_iteration_order (order : List String) (text : String)
    (h : (parseCommandWith order text).intent ≠ "unknown") :
    ∃ l1 l2, positiveIntents order (lowerChars text) =
      l1 ++ (parseCommandWith order text).intent :: l2 ∧
      (∀ x ∈ l1, intentScore (lowerChars text) x <
        intentScore (lowerChars text) ((parseCommandWith order text).intent)) ∧
      (∀ x ∈ l2, intentScore (lowerChars text) x ≤
        intentScore (lowerChars text) ((parseCommandWith order text).intent)) := by
  simp only [parseCommandWith] at h ⊢
  by_cases hw : (splitWordsL (lowerChars text)).isEmpty
  · rw [if_pos hw] at h
    exact absurd rfl h
  · rw [if_neg hw] at h ⊢
    cases hp : positiveIntents order (lowerChars text) with
    | nil =>
      rw [hp] at h
      exact absurd rfl h
    | cons first rest =>
      exact foldl_first_max (intentScore (lowerChars text)) rest first

set_option maxRecDepth 40000 in
/-- C5 witness: on "play switch" with the insertion order as iteration order,
the winner is the first positive-score intent of that order. -/
theorem c5_witness :
    ∃ l1 l2, positiveIntents insertionOrder (lowerChars "play switch") =
      l1 ++ (parseCommandWith insertionOrder "play switch").intent :: l2 ∧
      (∀ x ∈ l1, intentScore (lowerChars "play switch") x <
        intentScore (lowerChars "play switch")
          ((parseCommandWith insertionOrder "play switch").intent)) ∧
      (∀ x ∈ l2, intentScore (lowerChars "play switch") x ≤
        intentScore (lowerChars "play switch")
          ((parseCommandWith insertionOrder "play switch").intent)) :=
  c5_tie_break_follows_iteration_order insertionOrder "play switch" (by decide)

set_option maxRecDepth 40000 in
/-- C5 counterexample: "play switch" scores 1 for both `play_music` and
`switch_audio`.  Under the insertion order the winner is `play_music`; under
another iteration order of the same intents — equally admissible for an
`std::unordered_map` — the winner is `switch_audio`.  The code therefore does
not guarantee the insertion-order tie-break the claim states. -/
theorem c5_counterexample :
    List.Perm
      ["switch_audio", "play_music", "control_volume", "system_control", "file_operation",
       "smart_home", "communication", "navigation", "hardware_control"] insertionOrder ∧
    intentScore (lowerChars "play switch") "play_music" =
      intentScore (lowerChars "play switch") "switch_audio" ∧
    (parseCommandWith insertionOrder "play switch").intent = "play_music" ∧
    (parseCommandWith
      ["switch_audio", "play_music", "control_volume", "system_control", "file_operation",
       "smart_home", "communication", "navigation", "hardware_control"]
      "play switch").intent = "switch_audio" := by
  refine ⟨?_, by decide, by decide, by decide⟩
  decide


/-- C9: `HandleGPIOControl` reads the `value` field with `get("value", -1)`,
so a negative JSON `value` is indistinguishable from an absent one: with no
`direction` it selects the read branch, and with `direction = "output"` it
configures the pin without setting it. -/
theorem c9_negative_value_sentinel (s : HWState) (pin v : Int) (hv : v < 0) :
    HandleGPIOControl s ⟨some pin, none, some v⟩ =
      HandleGPIOControl s ⟨some pin, none, none⟩ ∧
    HandleGPIOControl s ⟨some pin, some "output", some v⟩ =
      HandleGPIOControl s ⟨some pin, some "output", none⟩ := by
  have hv1 : ¬ (0 ≤ v) := by omega
  have hv2 : ¬ ((0 : Int) ≤ -1) := by omega
  constructor <;> simp [HandleGPIOControl, hv1, hv2]

/-- C9 witness: request value -5 on pin 7 behaves as the omitted-value
request, in both the no-direction and the output-direction shape. -/
theorem c9_witness :
    HandleGPIOControl initHWState ⟨some 7, none, some (-5)⟩ =
      HandleGPIOControl initHWState ⟨some 7, none, none⟩ ∧
    HandleGPIOControl initHWState ⟨some 7, some "output", some (-5)⟩ =
      HandleGPIOControl initHWState ⟨some 7, some "output", none⟩ :=
  c9_negative_value_sentinel initHWState 7 (-5) (by norm_num)

/-! ## GPIO claim bookkeeping for C7 -/

/-- The `(handleId, pin)` claims the `activeLines` map should account for. -/
def linesClaims (l : List (Int × GPIOLineInfo)) : List (Nat × Int) :=
  l.map (fun q => (q.2.requestId, q.1))

/-- Consistency between the event history and the `activeLines` map: the
active claims are exactly the stored line requests, handle ids are below the
fresh-id counter and pairwise distinct, and pins are pairwise distinct. -/
def HWInv (s : HWState) : Prop :=
  activeClaims s.events = linesClaims s.activeLines ∧
  (∀ q ∈ s.activeLines, q.2.requestId < s.nextId) ∧
  (s.activeLines.map (fun q => q.2.requestId)).Nodup ∧
  (s.activeLines.map Prod.fst).Nodup

theorem activeClaims_append (evs evs' : List HWEvent) :
    activeClaims (evs ++ evs') = evs'.foldl claimStep (activeClaims evs) := by
  simp [activeClaims, List.foldl_append]

theorem hwinv_init : HWInv initHWState := by
  refine ⟨rfl, ?_, ?_, ?_⟩ <;> simp [initHWState, linesClaims]

theorem hwinv_set (s : HWState) (pin : Int) (v : Bool) (h : HWInv s) :
    HWInv (SetGPIOPin s pin v).2 := by
  unfold SetGPIOPin
  split
  · exact h
  · split
    · exact h
    · refine ⟨?_, h.2.1, h.2.2.1, h.2.2.2⟩
      rw [activeClaims_append]
      exact h.1

theorem hwinv_get (s : HWState) (pin : Int) (h : HWInv s) :
    HWInv (GetGPIOPin s pin).2 := by
  unfold GetGPIOPin
  split
  · exact h
  · refine ⟨?_, h.2.1, h.2.2.1, h.2.2.2⟩
    rw [activeClaims_append]
    exact h.1

theorem hwinv_configure (s : HWState) (pin : Int) (d : String) (h : HWInv s) :
    HWInv (ConfigureGPIOPin s pin d).2 := by
  obtain ⟨hclaims, hbound, hids, hkeys⟩ := h
  unfold ConfigureGPIOPin
  cases hl : linesLookup s.activeLines pin with
  | none =>
    have hnokey : ∀ q ∈ s.activeLines, ¬ (q.1 = pin) := by
      intro q hq
      have hf : s.activeLines.find? (fun q => q.1 = pin) = none := by
        unfold linesLookup at hl
        cases hf : s.activeLines.find? (fun q => q.1 = pin) with
        | none => rfl
        | some e => rw [hf] at hl; simp at hl
      have := List.find?_eq_none.mp hf q hq
      simpa using this
    refine ⟨?_, ?_, ?_, ?_⟩
    · rw [activeClaims_append]
      simp only [List.foldl_cons, List.foldl_nil, claimStep]
      rw [hclaims]
      simp [linesClaims]
    · intro q hq
      rcases List.mem_append.mp hq with hq | hq
      · exact Nat.lt_succ_of_lt (hbound q hq)
      · simp at hq
        subst hq
        exact Nat.lt_succ_self _
    · rw [List.map_append, List.nodup_append]
      refine ⟨hids, by simp, ?_⟩
      intro a ha hb
      simp at hb
      subst hb
      rcases List.mem_map.mp ha with ⟨q, hq, hid⟩
      have := hbound q hq
      omega
    · rw [List.map_append, List.nodup_append]
      refine ⟨hkeys, by simp, ?_⟩
      intro a ha hb
      simp at hb
      subst hb
      rcases List.mem_map.mp ha with ⟨q, hq, hkey⟩
      exact hnokey q hq hkey
  | some old =>
    have hf : ∃ e, s.activeLines.find? (fun q => q.1 = pin) = some e ∧
        e.1 = pin ∧ e.2 = old := by
      unfold linesLookup at hl
      cases hf : s.activeLines.find? (fun q => q.1 = pin) with
      | none => rw [hf] at hl; simp at hl
      | some e =>
        rw [hf] at hl
        simp at hl
        exact ⟨e, rfl, by simpa using List.find?_some hf, hl⟩
    obtain ⟨e, hfind, hekey, heval⟩ := hf
    have hemem : e ∈ s.activeLines := List.mem_of_find?_eq_some hfind
    have hfiltereq : s.activeLines.filter
          (fun q => decide (q.2.requestId ≠ old.requestId)) =
        linesErase s.activeLines pin := by
      unfold linesErase
      apply List.filter_congr
      intro q hq
      by_cases hqk : q.1 = pin
      · have : q = e := List.inj_on_of_nodup_map hkeys hq hemem (by rw [hqk, hekey])
        subst this
        simp [hqk, heval]
      · have hqid : q.2.requestId ≠ old.requestId := by
          intro hcon
          have : q = e := List.inj_on_of_nodup_map hids hq hemem (by rw [hcon, heval])
          subst this
          exact hqk hekey
        simp [hqk, hqid]
    refine ⟨?_, ?_, ?_, ?_⟩
    · have hevs : activeClaims ((s.events ++ [HWEvent.release old.requestId]) ++
          [HWEvent.acquire s.nextId pin]) =
          (activeClaims s.events).filter (fun q => decide (q.1 ≠ old.requestId)) ++
            [(s.nextId, pin)] := by
        rw [activeClaims_append, activeClaims_append]
        rfl
      rw [hevs, hclaims]
      unfold linesClaims
      rw [List.filter_map]
      have hcomp : ((fun q : Nat × Int => decide (q.1 ≠ old.requestId)) ∘
          (fun q : Int × GPIOLineInfo => (q.2.requestId, q.1))) =
          fun q : Int × GPIOLineInfo => decide (q.2.requestId ≠ old.requestId) := rfl
      rw [hcomp, hfiltereq]
      simp [linesClaims]
    · intro q hq
      rcases List.mem_append.mp hq with hq | hq
      · have : q ∈ s.activeLines := (List.mem_filter.mp hq).1
        exact Nat.lt_succ_of_lt (hbound q this)
      · simp at hq
        subst hq
        exact Nat.lt_succ_self _
    · rw [List.map_append, List.nodup_append]
      refine ⟨List.Nodup.sublist (List.Sublist.map _ (List.filter_sublist _)) hids, by simp, ?_⟩
      intro a ha hb
      simp at hb
      subst hb
      rcases List.mem_map.mp ha with ⟨q, hq, hid⟩
      have := hbound q (List.mem_filter.mp hq).1
      omega
    · rw [List.map_append, List.nodup_append]
      refine ⟨List.Nodup.sublist (List.Sublist.map _ (List.filter_sublist _)) hkeys, by simp, ?_⟩
      intro a ha hb
      simp at hb
      subst hb
      rcases List.mem_map.mp ha with ⟨q, hq, hkey⟩
      have := (List.mem_filter.mp hq).2
      rw [hkey] at this
      simp at this
theorem hwinv_runOps (ops : List HWOp) : HWInv (runOps initHWState ops) := by
  have : ∀ (l : List HWOp) (s : HWState), HWInv s → HWInv (runOps s l) := by
    intro l
    induction l with
    | nil => intro s h; exact h
    | cons op rest ih =>
      intro s h
      show HWInv (runOps (runOp s op) rest)
      apply ih
      cases op with
      | config pin d => exact hwinv_configure s pin d h
      | set pin v => exact hwinv_set s pin v h
      | get pin => exact hwinv_get s pin h
  exact this ops initHWState hwinv_init


/-- C7: `SetGPIOPin` succeeds exactly when the pin holds an active line
request configured as output, and on failure returns without touching the
state (no hardware event); reconfiguring a pin that already holds a claim
releases the prior request before acquiring the new one; and from the initial
state every operation sequence leaves at most one active claim per pin. -/
theorem c7_gpio_state_machine :
    (∀ (s : HWState) (pin : Int) (v : Bool),
      (SetGPIOPin s pin v).1 = true ↔
        ∃ info, linesLookup s.activeLines pin = some info ∧ info.is_output = true) ∧
    (∀ (s : HWState) (pin : Int) (v : Bool),
      (SetGPIOPin s pin v).1 = false → (SetGPIOPin s pin v).2 = s) ∧
    (∀ (s : HWState) (pin : Int) (d : String) (old : GPIOLineInfo),
      linesLookup s.activeLines pin = some old →
      (ConfigureGPIOPin s pin d).2.events =
        s.events ++ [HWEvent.release old.requestId, HWEvent.acquire s.nextId pin]) ∧
    (∀ ops : List HWOp,
      ((activeClaims (runOps initHWState ops).events).map Prod.snd).Nodup) := by
  refine ⟨?_, ?_, ?_, ?_⟩
  · intro s pin v
    unfold SetGPIOPin
    split
    next hl =>
      simp [hl]
    next info hl =>
      split
      next hno =>
        have hfalse : info.is_output = false := by
          cases hb : info.is_output
          · rfl
          · rw [hb] at hno; simp at hno
        simp [hl, hfalse]
      next hyes =>
        have htrue : info.is_output = true := by
          cases hb : info.is_output
          · rw [hb] at hyes; simp at hyes
          · rfl
        simp [hl, htrue]
  · intro s pin v
    unfold SetGPIOPin
    split
    next hl => intro _; rfl
    next info hl =>
      split
      next hno => intro _; rfl
      next hyes => intro hcon; exact absurd hcon (by simp)
  · intro s pin d old hl
    unfold ConfigureGPIOPin
    rw [hl]
    simp
  · intro ops
    obtain ⟨hclaims, _, _, hkeys⟩ := hwinv_runOps ops
    rw [hclaims]
    have hmap : (linesClaims (runOps initHWState ops).activeLines).map Prod.snd =
        (runOps initHWState ops).activeLines.map Prod.fst := by
      simp [linesClaims, List.map_map]
    rw [hmap]
    exact hkeys

set_option maxRecDepth 10000 in
/-- C7 witness: configure pin 18 as output, set it (succeeds); set
unconfigured pin 5 (fails, state untouched); reconfigure pin 18 as input
(releases handle 0 before acquiring the next one); and the claims of a
configure-reconfigure history have pairwise distinct pins. -/
theorem c7_witness :
    (SetGPIOPin (runOps initHWState [HWOp.config 18 "output"]) 18 true).1 = true ∧
    (SetGPIOPin initHWState 5 true).1 = false ∧
    (SetGPIOPin initHWState 5 true).2 = initHWState ∧
    (ConfigureGPIOPin (runOps initHWState [HWOp.config 18 "output"]) 18 "input").2.events =
      (runOps initHWState [HWOp.config 18 "output"]).events ++
        [HWEvent.release 0,
         HWEvent.acquire (runOps initHWState [HWOp.config 18 "output"]).nextId 18] ∧
    ((activeClaims (runOps initHWState
      [HWOp.config 18 "output", HWOp.config 18 "input"]).events).map Prod.snd).Nodup := by
  refine ⟨?_, by decide, ?_, ?_, ?_⟩
  · exact (c7_gpio_state_machine.1 _ 18 true).mpr
      ⟨⟨0, 18, true⟩, by decide, by decide⟩
  · exact c7_gpio_state_machine.2.1 initHWState 5 true (by decide)
  · exact c7_gpio_state_machine.2.2.1 _ 18 "input" ⟨0, 18, true⟩ (by decide)
  · exact c7_gpio_state_machine.2.2.2 [HWOp.config 18 "output", HWOp.config 18 "input"]

end MIA
